import Mathlib

/-!
Verification development for the speech-emotion-recognition repository.

The pipeline under study: audio preprocessing (amplitude normalization,
pad/trim to a fixed 3.0 s @ 22050 Hz duration), MFCC + mel-band feature
extraction (40 + 128 = 168 features per time step), a softmax classifier
head over 7 emotion classes, stratified 70/15/15 corpus splitting with a
fixed random seed, a confidence-weighted satisfaction scorer, and the
frontend upload/history handlers.

Numeric quantities are embedded over the rationals.
-/

namespace SER

/-- The seven emotion classes, in the order returned by the API
(`GET /api/emotions` in docs/MODEL.md). -/
inductive Emotion where
  | anger
  | disgust
  | fear
  | happiness
  | sadness
  | surprise
  | neutral
deriving DecidableEq, Repr

/-- The ordered label space: anger, disgust, fear, happiness, sadness,
surprise, neutral. -/
def emotions : List Emotion :=
  [.anger, .disgust, .fear, .happiness, .sadness, .surprise, .neutral]

/-- Modelled from the spec: the emotion → base-satisfaction table of
docs/MODEL.md (Emotion Classes table); the Python scorer itself is not in
the repository. Happiness 9.0, surprise 7.0, neutral 6.0, sadness 3.0,
fear 2.5, disgust 2.0, anger 1.0. -/
def baseScore : Emotion → ℚ
  | .happiness => 9
  | .surprise => 7
  | .neutral => 6
  | .sadness => 3
  | .fear => 5 / 2
  | .disgust => 2
  | .anger => 1

/-- The arg-max emotion of a probability assignment, first maximum winning
(as np.argmax does): fold over the label order, replacing the current best
only on a strictly larger probability. -/
def primaryEmotion (p : Emotion → ℚ) : Emotion :=
  emotions.foldl (fun best e => if p best < p e then e else best) .anger

/-- Confidence is the probability mass assigned to the arg-max emotion. -/
def confidence (p : Emotion → ℚ) : ℚ := p (primaryEmotion p)

/-- Modelled from the spec: the blending rule of docs/MODEL.md
(Satisfaction Score Calculation), as a function of the primary emotion and
the confidence: base_score * confidence + 5.0 * (1 - confidence). -/
def scoreFromConfidence (e : Emotion) (c : ℚ) : ℚ :=
  baseScore e * c + 5 * (1 - c)

/-- The satisfaction score of a probability assignment. -/
def satisfactionScore (p : Emotion → ℚ) : ℚ :=
  scoreFromConfidence (primaryEmotion p) (confidence p)

/-- The worked example of the README / spec: happiness 0.89, anger 0.02,
disgust 0.01, fear 0.03, sadness 0.01, surprise 0.03, neutral 0.01. -/
def demoProbs : Emotion → ℚ
  | .happiness => 89 / 100
  | .anger => 2 / 100
  | .disgust => 1 / 100
  | .fear => 3 / 100
  | .sadness => 1 / 100
  | .surprise => 3 / 100
  | .neutral => 1 / 100

/-- C1: the satisfaction score of every prediction is exactly
base_score(primary) * confidence + 5.0 * (1 - confidence); on the worked
probability vector the primary emotion is happiness, the confidence is
0.89, and the score is exactly 8.56 (= 214/25). -/
theorem satisfaction_score_formula :
    (∀ p : Emotion → ℚ,
      satisfactionScore p =
        baseScore (primaryEmotion p) * confidence p + 5 * (1 - confidence p))
    ∧ primaryEmotion demoProbs = .happiness
    ∧ confidence demoProbs = 89 / 100
    ∧ satisfactionScore demoProbs = 214 / 25 := by
  refine ⟨fun p => rfl, ?_, ?_, ?_⟩
  · norm_num [primaryEmotion, emotions, demoProbs]
  · norm_num [confidence, primaryEmotion, emotions, demoProbs]
  · norm_num [satisfactionScore, scoreFromConfidence, confidence,
      primaryEmotion, emotions, demoProbs, baseScore]

/-- C2: for a fixed primary emotion the score is nondecreasing in the
confidence when the base score is at least 5, nonincreasing when the base
score is at most 5, and at confidence 0 the score is exactly 5 for every
emotion. -/
theorem score_monotone_in_confidence :
    (∀ (e : Emotion) (c₁ c₂ : ℚ), 0 ≤ c₁ → c₁ ≤ c₂ → c₂ ≤ 1 →
      5 ≤ baseScore e → scoreFromConfidence e c₁ ≤ scoreFromConfidence e c₂)
    ∧ (∀ (e : Emotion) (c₁ c₂ : ℚ), 0 ≤ c₁ → c₁ ≤ c₂ → c₂ ≤ 1 →
      baseScore e ≤ 5 → scoreFromConfidence e c₂ ≤ scoreFromConfidence e c₁)
    ∧ (∀ e : Emotion, scoreFromConfidence e 0 = 5) := by
  refine ⟨?_, ?_, ?_⟩
  · intro e c₁ c₂ h0 h12 h21 hb
    have key : scoreFromConfidence e c₂ - scoreFromConfidence e c₁ =
        (baseScore e - 5) * (c₂ - c₁) := by
      simp only [scoreFromConfidence]; ring
    nlinarith [mul_nonneg (sub_nonneg.mpr hb) (sub_nonneg.mpr h12)]
  · intro e c₁ c₂ h0 h12 h21 hb
    have key : scoreFromConfidence e c₁ - scoreFromConfidence e c₂ =
        (5 - baseScore e) * (c₂ - c₁) := by
      simp only [scoreFromConfidence]; ring
    nlinarith [mul_nonneg (sub_nonneg.mpr hb) (sub_nonneg.mpr h12)]
  · intro e
    simp [scoreFromConfidence]

/-- Witness for C2: happiness (base 9 ≥ 5) is nondecreasing from 1/2 to
3/4, anger (base 1 ≤ 5) is nonincreasing, and neutral at confidence 0
scores exactly 5. -/
theorem score_monotone_in_confidence_witness :
    scoreFromConfidence .happiness (1 / 2) ≤ scoreFromConfidence .happiness (3 / 4)
    ∧ scoreFromConfidence .anger (3 / 4) ≤ scoreFromConfidence .anger (1 / 2)
    ∧ scoreFromConfidence .neutral 0 = 5 :=
  ⟨score_monotone_in_confidence.1 .happiness (1 / 2) (3 / 4)
      (by norm_num) (by norm_num) (by norm_num) (by norm_num [baseScore]),
   score_monotone_in_confidence.2.1 .anger (1 / 2) (3 / 4)
      (by norm_num) (by norm_num) (by norm_num) (by norm_num [baseScore]),
   score_monotone_in_confidence.2.2 .neutral⟩

/-! ### Frontend upload handler (components/AudioUploader.tsx, handleFile) -/

/-- A browser file as seen by the upload handler: name, declared MIME type
(the File.type field) and size in bytes. -/
structure UploadFile where
  name : String
  mime : String
  size : ℕ
deriving DecidableEq, Repr

/-- The validTypes array of handleFile. -/
def validTypes : List String :=
  ["audio/wav", "audio/mpeg", "audio/mp3", "audio/flac", "audio/ogg"]

/-- The case-insensitive extension test of handleFile, the regex
match against wav, mp3, flac or ogg anchored at the end of the name:
lowercase the name and test each dotted extension as a suffix. -/
def hasAudioExt (name : String) : Bool :=
  [".wav", ".mp3", ".flac", ".ogg"].any
    (fun e => e.data.isSuffixOf (name.data.map Char.toLower))

/-- The observable outcome of handleFile: setError with a message, or
setFile retaining the file for submission. -/
inductive UploadOutcome where
  | rejected (msg : String)
  | accepted (f : UploadFile)
deriving DecidableEq, Repr

/-- Whether an outcome retained the file. -/
def UploadOutcome.isAccepted : UploadOutcome → Bool
  | .accepted _ => true
  | .rejected _ => false

/-- The 10 MB ceiling of handleFile. -/
def maxUploadSize : ℕ := 10 * 1024 * 1024

/-- handleFile of AudioUploader.tsx: reject when neither the MIME type is
in validTypes nor the name matches the audio-extension regex; then reject
when the size exceeds 10 MB; otherwise retain the file. -/
def handleFile (f : UploadFile) : UploadOutcome :=
  if !validTypes.contains f.mime && !hasAudioExt f.name then
    .rejected "Please upload a valid audio file (WAV, MP3, FLAC, OGG)"
  else if maxUploadSize < f.size then
    .rejected "File size must be less than 10MB"
  else
    .accepted f

/-- C8: every file strictly over 10 MB is rejected with an error message
and never retained for submission, and every file at or below the ceiling
that passes the type check (MIME type or extension) is retained. -/
theorem upload_size_ceiling :
    (∀ f : UploadFile, maxUploadSize < f.size →
      ∃ msg, handleFile f = .rejected msg)
    ∧ (∀ f : UploadFile, f.size ≤ maxUploadSize →
      (validTypes.contains f.mime = true ∨ hasAudioExt f.name = true) →
      handleFile f = .accepted f) := by
  constructor
  · intro f hbig
    unfold handleFile
    by_cases h : (!validTypes.contains f.mime && !hasAudioExt f.name) = true
    · exact ⟨_, by rw [if_pos h]⟩
    · rw [if_neg h, if_pos hbig]
      exact ⟨_, rfl⟩
  · intro f hsize htype
    have h : (!validTypes.contains f.mime && !hasAudioExt f.name) = false := by
      rcases htype with h1 | h1
      · simp only [h1, Bool.not_true, Bool.false_and]
      · simp only [h1, Bool.not_true, Bool.and_false]
    unfold handleFile
    rw [h]
    simp only [Bool.false_eq_true, if_false]
    rw [if_neg (by omega)]

/-- Witness for C8: a 10 MB + 1 byte wav file is rejected; a 1 KB wav
file is retained. -/
theorem upload_size_ceiling_witness :
    (∃ msg, handleFile ⟨"big.wav", "audio/wav", 10 * 1024 * 1024 + 1⟩ = .rejected msg)
    ∧ handleFile ⟨"ok.wav", "audio/wav", 1024⟩ =
        .accepted ⟨"ok.wav", "audio/wav", 1024⟩ :=
  ⟨upload_size_ceiling.1 ⟨"big.wav", "audio/wav", 10 * 1024 * 1024 + 1⟩ (by norm_num [maxUploadSize]),
   upload_size_ceiling.2 ⟨"ok.wav", "audio/wav", 1024⟩ (by norm_num [maxUploadSize])
     (Or.inl (by decide))⟩

/-- A file whose name carries an allowed extension but whose size is over
the 10 MB ceiling: handleFile rejects it, so an allowed extension alone
does not imply acceptance. -/
def spoofedBig : UploadFile :=
  ⟨"evil.wav", "text/plain", 10 * 1024 * 1024 + 1⟩

/-- Counterexample for C10 as stated: spoofedBig has an allowed extension
(.wav) yet is not accepted, because its size exceeds the 10 MB ceiling. -/
theorem upload_type_check_counterexample :
    hasAudioExt spoofedBig.name = true
    ∧ (handleFile spoofedBig).isAccepted = false := by
  constructor
  · decide
  · decide

/-- C10 (amended): for files within the 10 MB ceiling, an allowed
extension suffices for acceptance regardless of the MIME type, and an
allowed MIME type suffices regardless of the extension. -/
theorem upload_type_or_extension_accepts :
    (∀ f : UploadFile, f.size ≤ maxUploadSize → hasAudioExt f.name = true →
      (handleFile f).isAccepted = true)
    ∧ (∀ f : UploadFile, f.size ≤ maxUploadSize →
      validTypes.contains f.mime = true → (handleFile f).isAccepted = true) := by
  constructor
  · intro f hsize hext
    unfold handleFile
    rw [show (!validTypes.contains f.mime && !hasAudioExt f.name) = false by
      simp only [hext, Bool.not_true, Bool.and_false]]
    simp only [Bool.false_eq_true, if_false]
    rw [if_neg (by omega)]
    rfl
  · intro f hsize hmime
    unfold handleFile
    rw [show (!validTypes.contains f.mime && !hasAudioExt f.name) = false by
      simp only [hmime, Bool.not_true, Bool.false_and]]
    simp only [Bool.false_eq_true, if_false]
    rw [if_neg (by omega)]
    rfl

/-- Witness for the amended C10: an uppercase .WAV name with a
non-audio MIME type is accepted, and an allowed MIME type with a
non-audio name is accepted. -/
theorem upload_type_or_extension_accepts_witness :
    (handleFile ⟨"x.WAV", "application/octet-stream", 5⟩).isAccepted = true
    ∧ (handleFile ⟨"voice.dat", "audio/flac", 5⟩).isAccepted = true :=
  ⟨upload_type_or_extension_accepts.1 ⟨"x.WAV", "application/octet-stream", 5⟩
      (by norm_num [maxUploadSize]) (by decide),
   upload_type_or_extension_accepts.2 ⟨"voice.dat", "audio/flac", 5⟩
      (by norm_num [maxUploadSize]) (by decide)⟩

/-! ### Frontend analysis history (app/page.tsx, handleAnalysisComplete) -/

/-- handleAnalysisComplete of page.tsx: prepend the new result and keep
the first 10 entries. -/
def historyStep {α : Type} (h : List α) (r : α) : List α :=
  (r :: h).take 10

/-- The history after a sequence of completed analyses, oldest first,
starting from the initial empty history. -/
def historyAfter {α : Type} (rs : List α) : List α :=
  rs.foldl historyStep []

/-- C9: after any sequence of completed analyses the history holds at most
10 results and its head is the most recent result. -/
theorem history_bounded_newest_first {α : Type} (rs : List α) :
    (historyAfter rs).length ≤ 10
    ∧ ∀ r, rs.getLast? = some r → (historyAfter rs).head? = some r := by
  constructor
  · have general : ∀ (l : List α) (init : List α), init.length ≤ 10 →
        (l.foldl historyStep init).length ≤ 10 := by
      intro l
      induction l with
      | nil => intro init h; simpa using h
      | cons a t ih =>
        intro init h
        simp only [List.foldl_cons]
        exact ih _ (by simp [historyStep])
    exact general rs [] (by simp)
  · induction rs using List.reverseRecOn with
    | nil => intro r hr; simp at hr
    | append_singleton l a ih =>
      intro r hr
      rw [List.getLast?_concat] at hr
      obtain rfl : a = r := by injection hr
      simp [historyAfter, List.foldl_append, historyStep]

/-- Witness for C9: after the analyses 1, 2, 3 the history has at most 10
entries and its head is 3. -/
theorem history_bounded_newest_first_witness :
    (historyAfter [1, 2, 3]).length ≤ 10
    ∧ (historyAfter ([1, 2, 3] : List ℕ)).head? = some 3 :=
  ⟨(history_bounded_newest_first [1, 2, 3]).1,
   (history_bounded_newest_first [1, 2, 3]).2 3 (by decide)⟩

/-! ### Audio preprocessing (docs snippets in src/unnamed/part_003:
load at 22050 Hz, amplitude normalization by max abs + 1e-6, pad with
trailing zeros or truncate to the fixed length) -/

/-- The epsilon of the amplitude normalization, 1e-6. -/
def epsAmp : ℚ := 1 / 1000000

/-- np.max(np.abs(audio)), with 0 for the empty clip. -/
def maxAbs (audio : List ℚ) : ℚ :=
  (audio.map (fun x => |x|)).foldr max 0

/-- audio / (np.max(np.abs(audio)) + 1e-6). -/
def amplitudeNormalize (audio : List ℚ) : List ℚ :=
  audio.map (fun x => x / (maxAbs audio + epsAmp))

/-- The canonical sample rate, 22050 Hz. -/
def sampleRate : ℕ := 22050

/-- The fixed target length: 3.0 s at 22050 Hz = 66150 samples. -/
def maxSamples : ℕ := 3 * sampleRate

/-- The pad/trim step: shorter clips get trailing zeros, longer clips are
cut to the first maxSamples samples (audio[:max_length]). -/
def padOrTrim (audio : List ℚ) : List ℚ :=
  if audio.length < maxSamples then
    audio ++ List.replicate (maxSamples - audio.length) 0
  else
    audio.take maxSamples

/-- The AudioNormalizer pipeline after decoding: amplitude normalization
followed by pad/trim. -/
def normalizePipeline (audio : List ℚ) : List ℚ :=
  padOrTrim (amplitudeNormalize audio)

theorem maxAbs_nonneg (audio : List ℚ) : 0 ≤ maxAbs audio := by
  induction audio with
  | nil => simp [maxAbs]
  | cons a t ih =>
    simp only [maxAbs, List.map_cons, List.foldr_cons]
    exact le_max_of_le_right ih

theorem abs_le_maxAbs (audio : List ℚ) : ∀ x ∈ audio, |x| ≤ maxAbs audio := by
  induction audio with
  | nil => simp
  | cons a t ih =>
    intro x hx
    simp only [maxAbs, List.map_cons, List.foldr_cons]
    rcases List.mem_cons.mp hx with rfl | hx
    · exact le_max_left _ _
    · exact le_max_of_le_right (ih x hx)

theorem maxAbs_of_silence {audio : List ℚ} (h : ∀ x ∈ audio, x = 0) :
    maxAbs audio = 0 := by
  induction audio with
  | nil => simp [maxAbs]
  | cons a t ih =>
    have ha : a = 0 := h a (List.mem_cons_self a t)
    have ht : maxAbs t = 0 := ih (fun x hx => h x (List.mem_cons_of_mem a hx))
    show max |a| (maxAbs t) = 0
    rw [ha, ht, abs_zero, max_self]

/-- C4: on pure silence the normalizer returns pure silence (the fixed
all-zero clip), and the amplitude divisor max abs + epsilon is nonzero. -/
theorem silence_maps_to_silence (audio : List ℚ) (h : ∀ x ∈ audio, x = 0) :
    normalizePipeline audio = List.replicate maxSamples 0
    ∧ maxAbs audio + epsAmp ≠ 0 := by
  have hm : maxAbs audio = 0 := maxAbs_of_silence h
  have hnorm : amplitudeNormalize audio = List.replicate audio.length 0 := by
    rw [List.eq_replicate_iff]
    refine ⟨by simp [amplitudeNormalize], ?_⟩
    intro b hb
    rcases List.mem_map.mp hb with ⟨x, hx, rfl⟩
    rw [h x hx, zero_div]
  constructor
  · rw [normalizePipeline, hnorm, padOrTrim]
    split
    · rename_i hshort
      rw [List.length_replicate] at hshort ⊢
      rw [← List.replicate_add]
      congr 1
      omega
    · rename_i hlong
      rw [List.length_replicate] at hlong
      rw [List.take_replicate]
      congr 1
      omega
  · rw [hm, zero_add]
    norm_num [epsAmp]

/-- Witness for C4: the three-sample silent clip normalizes to the
all-zero target-length clip with a nonzero divisor. -/
theorem silence_maps_to_silence_witness :
    normalizePipeline [0, 0, 0] = List.replicate maxSamples 0
    ∧ maxAbs [0, 0, 0] + epsAmp ≠ 0 :=
  silence_maps_to_silence [0, 0, 0] (by intro x hx; simpa using hx)

theorem amplitudeNormalize_mem_bounds (audio : List ℚ) :
    ∀ y ∈ amplitudeNormalize audio, -1 ≤ y ∧ y ≤ 1 := by
  intro y hy
  rcases List.mem_map.mp hy with ⟨x, hx, rfl⟩
  have hM : 0 ≤ maxAbs audio := maxAbs_nonneg audio
  have hdpos : 0 < maxAbs audio + epsAmp := by
    have : (0 : ℚ) < epsAmp := by norm_num [epsAmp]
    linarith
  have habs : |x / (maxAbs audio + epsAmp)| ≤ 1 := by
    rw [abs_div, abs_of_pos hdpos, div_le_one hdpos]
    calc |x| ≤ maxAbs audio := abs_le_maxAbs audio x hx
    _ ≤ maxAbs audio + epsAmp := by
        have heps : (0 : ℚ) < epsAmp := by norm_num [epsAmp]
        linarith
  exact abs_le.mp habs

/-- C5: for every nonempty clip the normalized output has exactly the
fixed 66150-sample (3.0 s at 22050 Hz) length with every sample in
[-1, 1]; clips shorter than the target are extended with trailing zeros
and clips at least as long are cut to their first 66150 samples. -/
theorem normalize_fixed_length_bounded (audio : List ℚ) (hne : audio ≠ []) :
    (normalizePipeline audio).length = maxSamples
    ∧ (∀ y ∈ normalizePipeline audio, -1 ≤ y ∧ y ≤ 1)
    ∧ ((amplitudeNormalize audio).length < maxSamples →
        normalizePipeline audio =
          amplitudeNormalize audio ++
            List.replicate (maxSamples - (amplitudeNormalize audio).length) 0)
    ∧ (maxSamples ≤ (amplitudeNormalize audio).length →
        normalizePipeline audio = (amplitudeNormalize audio).take maxSamples) := by
  refine ⟨?_, ?_, ?_, ?_⟩
  · rw [normalizePipeline, padOrTrim]
    split
    · rename_i hshort
      rw [List.length_append, List.length_replicate]
      omega
    · rename_i hlong
      rw [List.length_take]
      omega
  · intro y hy
    rw [normalizePipeline, padOrTrim] at hy
    split at hy
    · rcases List.mem_append.mp hy with hy | hy
      · exact amplitudeNormalize_mem_bounds audio y hy
      · rw [List.eq_of_mem_replicate hy]
        norm_num
    · exact amplitudeNormalize_mem_bounds audio y (List.take_subset _ _ hy)
  · intro hshort
    rw [normalizePipeline, padOrTrim, if_pos hshort]
  · intro hlong
    rw [normalizePipeline, padOrTrim, if_neg (by omega)]

/-- Witness for C5: the one-sample clip [1/2] normalizes to a clip of
exactly 66150 samples. -/
theorem normalize_fixed_length_bounded_witness :
    (normalizePipeline [1 / 2]).length = maxSamples :=
  (normalize_fixed_length_bounded [1 / 2] (by simp)).1

/-! ### Classifier output layer (docs/MODEL.md: Dense(7, softmax)) -/

/-- Modelled from the spec: the softmax denominator of the 7-unit output
layer; the TensorFlow implementation is not in the repository, so the
exponential is abstracted as a map E, required positive where used. -/
def softmaxDenom (E : ℚ → ℚ) (z : Fin 7 → ℚ) : ℚ :=
  ∑ j : Fin 7, E (z j)

/-- Modelled from the spec: the probability vector emitted by the
classifier, the normalized exponentials of the 7 output logits. -/
def inferProbs (E : ℚ → ℚ) (z : Fin 7 → ℚ) : List ℚ :=
  List.ofFn (fun i : Fin 7 => E (z i) / softmaxDenom E z)

/-- C3: every probability vector produced by the classifier has length
exactly 7, entries in [0, 1], and entries summing to 1 within 1e-3 (here
exactly 1). -/
theorem infer_probability_vector (E : ℚ → ℚ) (z : Fin 7 → ℚ)
    (hE : ∀ x, 0 < E x) :
    (inferProbs E z).length = 7
    ∧ (∀ p ∈ inferProbs E z, 0 ≤ p ∧ p ≤ 1)
    ∧ |(inferProbs E z).sum - 1| ≤ 1 / 1000 := by
  have hS : 0 < softmaxDenom E z :=
    Finset.sum_pos (fun j _ => hE (z j)) ⟨0, Finset.mem_univ 0⟩
  refine ⟨by simp [inferProbs], ?_, ?_⟩
  · intro p hp
    rcases (List.mem_ofFn _ p).mp hp with ⟨i, rfl⟩
    constructor
    · exact div_nonneg (hE (z i)).le hS.le
    · rw [div_le_one hS]
      exact Finset.single_le_sum (fun j _ => (hE (z j)).le) (Finset.mem_univ i)
  · have hsum : (inferProbs E z).sum = 1 := by
      rw [inferProbs, List.sum_ofFn, ← Finset.sum_div, ← softmaxDenom,
        div_self hS.ne']
    rw [hsum]
    norm_num

/-- Witness for C3: with the constant positive map x ↦ 1 the probability
vector has length 7 and sums to 1 within 1e-3. -/
theorem infer_probability_vector_witness :
    (inferProbs (fun _ => 1) (fun _ => 0)).length = 7
    ∧ |(inferProbs (fun _ => 1) (fun _ => 0)).sum - 1| ≤ 1 / 1000 :=
  ⟨(infer_probability_vector (fun _ => 1) (fun _ => 0) (fun _ => one_pos)).1,
   (infer_probability_vector (fun _ => 1) (fun _ => 0) (fun _ => one_pos)).2.2⟩

/-! ### Feature extraction (docs/MODEL.md Combined Features and
src/unnamed/part_003 Feature Extraction: MFCC 40 + mel 128 = 168) -/

/-- n_mfcc = 40 cepstral coefficients. -/
def nMfcc : ℕ := 40

/-- n_mels = 128 mel bands. -/
def nMels : ℕ := 128

/-- Modelled from the spec: one feature row — the 40 cepstral
coefficients concatenated with the 128 mel-band energies of a time step;
the DSP kernels are not in the repository and are abstracted as
coefficient maps cep and mel over (clip, time step, index). -/
def featureFrame (cep mel : List ℚ → ℕ → ℕ → ℚ) (clip : List ℚ) (t : ℕ) :
    List ℚ :=
  (List.range nMfcc).map (cep clip t) ++ (List.range nMels).map (mel clip t)

/-- Modelled from the spec: the feature matrix of a clip, one row per
time step. -/
def extract (cep mel : List ℚ → ℕ → ℕ → ℚ) (clip : List ℚ) (steps : ℕ) :
    List (List ℚ) :=
  (List.range steps).map (featureFrame cep mel clip)

/-- C6: every row of every extracted feature matrix has length exactly
168 = 40 + 128, for every clip and number of time steps. -/
theorem extract_feature_dim (cep mel : List ℚ → ℕ → ℕ → ℚ)
    (clip : List ℚ) (steps : ℕ) :
    ∀ row ∈ extract cep mel clip steps, row.length = 168 := by
  intro row hrow
  rcases List.mem_map.mp hrow with ⟨t, _, rfl⟩
  simp [featureFrame, nMfcc, nMels]

/-- Witness for C6: the single frame of a one-step extraction of the
empty clip under the zero coefficient maps has 168 entries. -/
theorem extract_feature_dim_witness :
    (featureFrame (fun _ _ _ => 0) (fun _ _ _ => 0) [] 0).length = 168 :=
  extract_feature_dim (fun _ _ _ => 0) (fun _ _ _ => 0) [] 1
    (featureFrame (fun _ _ _ => 0) (fun _ _ _ => 0) [] 0)
    (by simp [extract])

/-! ### Trainer corpus splitting (src/unnamed/part_003 Data Splits:
train_test_split with random_state=42 and stratify=y, test_size 0.3 then
0.5 of the remainder: 70 % train, 15 % validation, 15 % test) -/

/-- The items of a labeled corpus carrying a given emotion class. -/
def classItems {α : Type} (corpus : List (α × Emotion)) (c : Emotion) :
    List (α × Emotion) :=
  corpus.filter (fun x => decide (x.2 = c))

/-- Modelled from the spec: the size of the 30 % temp pool a class of n
items sends to the second stage (test_size = 0.3), the complement of the
70 % (floor) training allocation. -/
def stageOneTemp (n : ℕ) : ℕ := n - 7 * n / 10

/-- Modelled from the spec: the split of one class's items. sklearn's
seeded shuffle is not in the repository; the fixed random_state is
modelled as the deterministic rotation of the class list by the seed.
Stage one keeps 70 % for training and sends stageOneTemp items to the
temp pool (which therefore has exactly stageOneTemp l.length elements);
stage two halves temp into validation (floor) and test (the rest). -/
def classSplit {β : Type} (seed : ℕ) (l : List β) :
    List β × List β × List β :=
  ((l.rotate seed).drop (stageOneTemp l.length),
   ((l.rotate seed).take (stageOneTemp l.length)).take (stageOneTemp l.length / 2),
   ((l.rotate seed).take (stageOneTemp l.length)).drop (stageOneTemp l.length / 2))

/-- The training partition: the per-class 70 % allocations, classes in
label order. -/
def trainSplit {α : Type} (seed : ℕ) (corpus : List (α × Emotion)) :
    List (α × Emotion) :=
  (emotions.map (fun c => (classSplit seed (classItems corpus c)).1)).flatten

/-- The validation partition. -/
def valSplit {α : Type} (seed : ℕ) (corpus : List (α × Emotion)) :
    List (α × Emotion) :=
  (emotions.map (fun c => (classSplit seed (classItems corpus c)).2.1)).flatten

/-- The test partition. -/
def testSplit {α : Type} (seed : ℕ) (corpus : List (α × Emotion)) :
    List (α × Emotion) :=
  (emotions.map (fun c => (classSplit seed (classItems corpus c)).2.2)).flatten

theorem mem_classItems {α : Type} {corpus : List (α × Emotion)} {c : Emotion}
    {x : α × Emotion} (hx : x ∈ classItems corpus c) : x ∈ corpus ∧ x.2 = c := by
  have h := List.mem_filter.mp hx
  exact ⟨h.1, of_decide_eq_true h.2⟩

theorem classSplit_fst_subset {β : Type} (seed : ℕ) (l : List β) :
    (classSplit seed l).1 ⊆ l := fun x hx =>
  (List.rotate_perm l seed).subset (List.drop_subset _ _ hx)

theorem classSplit_val_subset {β : Type} (seed : ℕ) (l : List β) :
    (classSplit seed l).2.1 ⊆ l := fun x hx =>
  (List.rotate_perm l seed).subset
    (List.take_subset _ _ (List.take_subset _ _ hx))

theorem classSplit_test_subset {β : Type} (seed : ℕ) (l : List β) :
    (classSplit seed l).2.2 ⊆ l := fun x hx =>
  (List.rotate_perm l seed).subset
    (List.take_subset _ _ (List.drop_subset _ _ hx))

theorem classSplit_disjoint {β : Type} (seed : ℕ) {l : List β}
    (hl : l.Nodup) :
    (classSplit seed l).1.Disjoint (classSplit seed l).2.1
    ∧ (classSplit seed l).1.Disjoint (classSplit seed l).2.2
    ∧ (classSplit seed l).2.1.Disjoint (classSplit seed l).2.2 := by
  have hsh : (l.rotate seed).Nodup := List.nodup_rotate.mpr hl
  have hdtd := List.disjoint_take_drop (m := stageOneTemp l.length)
    (n := stageOneTemp l.length) hsh le_rfl
  refine ⟨?_, ?_, ?_⟩
  · intro x hx hx'
    exact hdtd (List.take_subset _ _ hx') hx
  · intro x hx hx'
    exact hdtd (List.drop_subset _ _ hx') hx
  · have htemp : ((l.rotate seed).take (stageOneTemp l.length)).Nodup :=
      (List.take_sublist _ _).nodup hsh
    exact List.disjoint_take_drop htemp le_rfl

theorem mem_flatten_map {α β : Type} {L : List α} {f : α → List β} {x : β}
    (hx : x ∈ (L.map f).flatten) : ∃ a ∈ L, x ∈ f a := by
  rcases List.mem_flatten.mp hx with ⟨l, hl, hxl⟩
  rcases List.mem_map.mp hl with ⟨a, ha, rfl⟩
  exact ⟨a, ha, hxl⟩

/-- Every class is in the label list. -/
theorem mem_emotions (c : Emotion) : c ∈ emotions := by
  cases c <;> decide

theorem filter_flatten_eq_nil {β : Type} {p : β → Bool} {g : Emotion → List β} :
    ∀ {L : List Emotion}, (∀ c ∈ L, ∀ x ∈ g c, p x = false) →
      ((L.map g).flatten.filter p) = [] := by
  intro L
  induction L with
  | nil => intro _; rfl
  | cons d t ih =>
    intro h
    simp only [List.map_cons, List.flatten_cons, List.filter_append]
    rw [List.filter_eq_nil_iff.mpr, ih
      (fun c' hc' => h c' (List.mem_cons_of_mem d hc'))]
    · rfl
    · intro x hx
      simp [h d (List.mem_cons_self d t) x hx]

theorem filter_flatten_eq_single {β : Type} {p : β → Bool}
    {g : Emotion → List β} {c : Emotion} :
    ∀ {L : List Emotion}, L.Nodup → c ∈ L →
      (∀ x ∈ g c, p x = true) →
      (∀ c' ∈ L, c' ≠ c → ∀ x ∈ g c', p x = false) →
      ((L.map g).flatten.filter p) = g c := by
  intro L
  induction L with
  | nil => intro _ hc; exact absurd hc (List.not_mem_nil c)
  | cons d t ih =>
    intro hnd hc hcp hother
    simp only [List.map_cons, List.flatten_cons, List.filter_append]
    rcases List.mem_cons.mp hc with rfl | hct
    · have hnot : c ∉ t := (List.nodup_cons.mp hnd).1
      rw [List.filter_eq_self.mpr hcp, filter_flatten_eq_nil
        (fun c' hc' x hx => hother c' (List.mem_cons_of_mem c hc')
          (fun he => hnot (he ▸ hc')) x hx)]
      exact List.append_nil _
    · have hdc : d ≠ c := by
        intro he
        exact (List.nodup_cons.mp hnd).1 (he ▸ hct)
      rw [List.filter_eq_nil_iff.mpr, ih (List.nodup_cons.mp hnd).2 hct hcp
        (fun c' hc' => hother c' (List.mem_cons_of_mem d hc'))]
      · rfl
      · intro x hx
        simp [hother d (List.mem_cons_self d t) hdc x hx]

theorem classSplit_lengths {β : Type} (seed : ℕ) (l : List β) :
    (classSplit seed l).1.length = l.length - stageOneTemp l.length
    ∧ (classSplit seed l).2.1.length = stageOneTemp l.length / 2
    ∧ (classSplit seed l).2.2.length
        = stageOneTemp l.length - stageOneTemp l.length / 2 := by
  have hk : stageOneTemp l.length ≤ l.length := Nat.sub_le _ _
  refine ⟨?_, ?_, ?_⟩ <;>
    simp only [classSplit, List.length_drop, List.length_take,
      List.length_rotate] <;>
    omega

/-- C7: the seeded stratified splitter is deterministic (identical corpus
and seed give identical partitions), the three partitions are pairwise
disjoint on a duplicate-free corpus, and on every class whose size is a
multiple of 20 the partitions hold exactly 70 %, 15 % and 15 % of that
class's items. -/
theorem trainer_split_deterministic_stratified {α : Type} :
    (∀ (s₁ s₂ : ℕ) (c₁ c₂ : List (α × Emotion)), s₁ = s₂ → c₁ = c₂ →
      trainSplit s₁ c₁ = trainSplit s₂ c₂
      ∧ valSplit s₁ c₁ = valSplit s₂ c₂
      ∧ testSplit s₁ c₁ = testSplit s₂ c₂)
    ∧ (∀ (seed : ℕ) (corpus : List (α × Emotion)), corpus.Nodup →
      (trainSplit seed corpus).Disjoint (valSplit seed corpus)
      ∧ (trainSplit seed corpus).Disjoint (testSplit seed corpus)
      ∧ (valSplit seed corpus).Disjoint (testSplit seed corpus))
    ∧ (∀ (seed : ℕ) (corpus : List (α × Emotion)) (c : Emotion),
      20 ∣ (classItems corpus c).length →
      20 * ((trainSplit seed corpus).filter (fun x => decide (x.2 = c))).length
          = 14 * (classItems corpus c).length
      ∧ 20 * ((valSplit seed corpus).filter (fun x => decide (x.2 = c))).length
          = 3 * (classItems corpus c).length
      ∧ 20 * ((testSplit seed corpus).filter (fun x => decide (x.2 = c))).length
          = 3 * (classItems corpus c).length) := by
  refine ⟨?_, ?_, ?_⟩
  · rintro s₁ s₂ c₁ c₂ rfl rfl
    exact ⟨rfl, rfl, rfl⟩
  · intro seed corpus hnd
    have hnodup : ∀ c : Emotion, (classItems corpus c).Nodup :=
      fun c => hnd.filter _
    have hlabel1 : ∀ c : Emotion,
        ∀ x ∈ (classSplit seed (classItems corpus c)).1, x.2 = c :=
      fun c x hx => (mem_classItems (classSplit_fst_subset _ _ hx)).2
    have hlabel2 : ∀ c : Emotion,
        ∀ x ∈ (classSplit seed (classItems corpus c)).2.1, x.2 = c :=
      fun c x hx => (mem_classItems (classSplit_val_subset _ _ hx)).2
    have hlabel3 : ∀ c : Emotion,
        ∀ x ∈ (classSplit seed (classItems corpus c)).2.2, x.2 = c :=
      fun c x hx => (mem_classItems (classSplit_test_subset _ _ hx)).2
    refine ⟨?_, ?_, ?_⟩
    · intro x hx hx'
      obtain ⟨c, _, hxc⟩ := mem_flatten_map hx
      obtain ⟨c', _, hxc'⟩ := mem_flatten_map hx'
      obtain rfl : c = c' := (hlabel1 c x hxc) ▸ (hlabel2 c' x hxc')
      exact (classSplit_disjoint seed (hnodup c)).1 hxc hxc'
    · intro x hx hx'
      obtain ⟨c, _, hxc⟩ := mem_flatten_map hx
      obtain ⟨c', _, hxc'⟩ := mem_flatten_map hx'
      obtain rfl : c = c' := (hlabel1 c x hxc) ▸ (hlabel3 c' x hxc')
      exact (classSplit_disjoint seed (hnodup c)).2.1 hxc hxc'
    · intro x hx hx'
      obtain ⟨c, _, hxc⟩ := mem_flatten_map hx
      obtain ⟨c', _, hxc'⟩ := mem_flatten_map hx'
      obtain rfl : c = c' := (hlabel2 c x hxc) ▸ (hlabel3 c' x hxc')
      exact (classSplit_disjoint seed (hnodup c)).2.2 hxc hxc'
  · intro seed corpus c hdvd
    have hemo : emotions.Nodup := by decide
    have htr : (trainSplit seed corpus).filter (fun x => decide (x.2 = c))
        = (classSplit seed (classItems corpus c)).1 :=
      filter_flatten_eq_single hemo (mem_emotions c)
        (fun x hx => decide_eq_true
          ((mem_classItems (classSplit_fst_subset _ _ hx)).2))
        (fun c' _ hne x hx => decide_eq_false (by
          rw [(mem_classItems (classSplit_fst_subset _ _ hx)).2]
          exact hne))
    have hva : (valSplit seed corpus).filter (fun x => decide (x.2 = c))
        = (classSplit seed (classItems corpus c)).2.1 :=
      filter_flatten_eq_single hemo (mem_emotions c)
        (fun x hx => decide_eq_true
          ((mem_classItems (classSplit_val_subset _ _ hx)).2))
        (fun c' _ hne x hx => decide_eq_false (by
          rw [(mem_classItems (classSplit_val_subset _ _ hx)).2]
          exact hne))
    have hte : (testSplit seed corpus).filter (fun x => decide (x.2 = c))
        = (classSplit seed (classItems corpus c)).2.2 :=
      filter_flatten_eq_single hemo (mem_emotions c)
        (fun x hx => decide_eq_true
          ((mem_classItems (classSplit_test_subset _ _ hx)).2))
        (fun c' _ hne x hx => decide_eq_false (by
          rw [(mem_classItems (classSplit_test_subset _ _ hx)).2]
          exact hne))
    obtain ⟨hl1, hl2, hl3⟩ := classSplit_lengths seed (classItems corpus c)
    rw [htr, hva, hte, hl1, hl2, hl3]
    simp only [stageOneTemp]
    omega

/-- A demonstration corpus of 20 distinct happiness items. -/
def demoCorpus : List (ℕ × Emotion) :=
  (List.range 20).map (fun i => (i, Emotion.happiness))

/-- Witness for C7: on the 20-item corpus with seed 42 the train and
validation partitions are disjoint and the training partition holds
exactly 70 % of the happiness class. -/
theorem trainer_split_deterministic_stratified_witness :
    (trainSplit 42 demoCorpus).Disjoint (valSplit 42 demoCorpus)
    ∧ 20 * ((trainSplit 42 demoCorpus).filter
        (fun x => decide (x.2 = Emotion.happiness))).length
      = 14 * (classItems demoCorpus Emotion.happiness).length :=
  ⟨(trainer_split_deterministic_stratified.2.1 42 demoCorpus (by decide)).1,
   (trainer_split_deterministic_stratified.2.2 42 demoCorpus
     Emotion.happiness (by decide)).1⟩

end SER
